import Mathlib

set_option maxHeartbeats 1000000

/- Shallow embedding of the calling-resolution and mutation workflow of
   src/lcr/__init__.py: the class Callings (construction-time org-tree
   flattening, lookup, release_from_calling, call_to) and the module-level
   helpers single and to_lcr_date_format.  The remote portal is an external
   collaborator: its responses (candidate lists, write outcomes) enter the
   functions as explicit parameters, and the requests issued are recorded
   in an explicit trace. -/

/- Error values raised by the workflow: ItemNotFoundException and
   MultipleResponsesException are the classes at the bottom of the source;
   HTTPError models requests' raise_for_status on a failed write. -/
inductive LCRError where
  | ItemNotFoundException (msg : String)
  | MultipleResponsesException (msg : String)
  | HTTPError
  deriving Repr, DecidableEq

/-- Embedding of the module-level function single(list, itemName):
    raises MultipleResponsesException when len(list) > 1, ItemNotFoundException
    when len(list) == 0, and returns list[0] otherwise. -/
def single {α : Type} (l : List α) (itemName : String) : Except LCRError α :=
  if l.length > 1 then
    Except.error (LCRError.MultipleResponsesException ("More than one " ++ itemName ++ " found"))
  else if h : l.length = 0 then
    Except.error (LCRError.ItemNotFoundException ("No " ++ itemName ++ " found"))
  else
    Except.ok (l.get ⟨0, Nat.pos_of_ne_zero h⟩)

/- One calling record, the dict shape consumed from the callings lists of
   the org tree (fields read or written by the Callings class). -/
structure CallingRecord where
  position : String
  memberName : String
  memberId : Option Nat
  vacant : Bool
  hidden : Bool
  subOrgId : Nat
  positionTypeId : Nat
  activeDate : Option String
  releaseDate : Option String
  setApart : Bool
  deriving Repr, DecidableEq

/- One row of the candidate-lookup response consumed by call_to
   (only its id field is read by the source). -/
structure Member where
  id : Nat
  displayName : String
  deriving Repr, DecidableEq

/- A calendar date, standing for Python datetime.date. -/
structure Date where
  year : Nat
  month : Nat
  day : Nat
  deriving Repr, DecidableEq

/-- Most-significant-first decimal digit characters of a natural number,
    fuel-bounded so that it reduces by computation; the fuel only bounds the
    number of digits and n + 1 always suffices. -/
def decDigitsAux : Nat → Nat → List Char
  | 0, _ => []
  | fuel + 1, n =>
    if n < 10 then [Char.ofNat (48 + n)]
    else decDigitsAux fuel (n / 10) ++ [Char.ofNat (48 + n % 10)]

/-- Most-significant-first decimal digit characters of a natural number
    (the rendering strftime uses for each numeric field). -/
def decDigits (n : Nat) : List Char := decDigitsAux (n + 1) n

/-- Left zero-padding to a field width, as strftime's zero-padded numeric
    directives do. -/
def zeroPad (w : Nat) (cs : List Char) : List Char :=
  List.replicate (w - cs.length) '0' ++ cs

/-- Embedding of to_lcr_date_format(date) = date.strftime("%Y%m%d"):
    zero-padded 4-digit year, 2-digit month, 2-digit day, concatenated. -/
def to_lcr_date_format (d : Date) : String :=
  String.mk (zeroPad 4 (decDigits d.year) ++ (zeroPad 2 (decDigits d.month) ++ zeroPad 2 (decDigits d.day)))

/-- The position/name part of the list comprehension in _get_calling_by_name:
    calling['position'] == position and
    (calling['memberName'] == lastNameCommaFirst or lastNameCommaFirst == None).
    A None parameter makes the member-name conjunct true. -/
def baseMatch (position : String) (lastNameCommaFirst : Option String) (c : CallingRecord) : Bool :=
  c.position == position &&
    (match lastNameCommaFirst with
     | none => true
     | some n => c.memberName == n)

/-- Embedding of Callings._get_calling_by_name: filter the stored callings by
    position and (optional) member name, then filter by the condition, then
    apply single with label 'calling'. -/
def _get_calling_by_name (callings : List CallingRecord) (position : String)
    (lastNameCommaFirst : Option String) (condition : CallingRecord → Bool) :
    Except LCRError CallingRecord :=
  single ((callings.filter (baseMatch position lastNameCommaFirst)).filter condition) "calling"

/-- The combined predicate that the two filters of _get_calling_by_name apply:
    a record survives both filters exactly when this holds of it. -/
def lookupPred (position : String) (lastNameCommaFirst : Option String)
    (condition : CallingRecord → Bool) (c : CallingRecord) : Bool :=
  baseMatch position lastNameCommaFirst c && condition c

/-- In-place mutation of the resolved dict inside self.callings: the list with
    the record(s) satisfying the resolution predicate replaced by the mutated
    record.  When single succeeded, exactly one position satisfies it. -/
def updateMatching (p : CallingRecord → Bool) (c2 : CallingRecord)
    (st : List CallingRecord) : List CallingRecord :=
  st.map fun x => if p x then c2 else x

/- Network requests issued by the workflow, in order. -/
inductive NetOp where
  | getCandidates (term : String) (unitNumber : Nat) (subOrgId : Nat)
      (includeOutOfUnitMembers : Bool) (positionTypeId : Nat)
  | postCalling (record : CallingRecord)
  deriving Repr, DecidableEq

/-- The condition lambda passed by call_to to _get_calling_by_name:
    (calling['vacant'] or calling['memberName'] == lastNameCommaFirst)
    and (not calling['hidden'] or include_hidden). -/
def callToCondition (lastNameCommaFirst : String) (include_hidden : Bool)
    (c : CallingRecord) : Bool :=
  (c.vacant || c.memberName == lastNameCommaFirst) && (!c.hidden || include_hidden)

/-- Embedding of Callings.release_from_calling.  st is self.callings; today is
    date.today(); postOk tells whether the write's raise_for_status passes.
    Returns the final self.callings, the requests issued, and the outcome. -/
def release_from_calling (st : List CallingRecord) (position lastNameCommaFirst : String)
    (today : Date) (postOk : Bool) :
    List CallingRecord × List NetOp × Except LCRError Unit :=
  match _get_calling_by_name st position (some lastNameCommaFirst) (fun _ => true) with
  | Except.error e => (st, [], Except.error e)
  | Except.ok calling =>
    let calling2 := { calling with
      vacant := true,
      releaseDate := some (to_lcr_date_format today) }
    (updateMatching (lookupPred position (some lastNameCommaFirst) (fun _ => true)) calling2 st,
     [NetOp.postCalling calling2],
     if postOk then Except.ok () else Except.error LCRError.HTTPError)

/- ----------------------------------------------------------------------
   Org-tree flattening (Callings.__init__ and Callings._flatten_orgs).

   Python list objects are mutable and _flatten_orgs aliases them:
   result = orgs binds the very argument object, result += ... extends it in
   place, and the for loop iterates over the live, growing list.  The
   embedding therefore models the heap of list objects explicitly: org nodes
   are identifiers, and the mutable lists (the top-level orgs list returned
   by the portal and each node's own children list) are the cells of a store
   indexed by ListRef.  Recursion is fuel-bounded; none only signals
   exhausted fuel, never a behavior of the source.
   ---------------------------------------------------------------------- -/

/- A reference to one mutable list object: the top-level orgs list, or the
   children list owned by node n. -/
inductive ListRef where
  | top
  | child (n : Nat)
  deriving Repr, DecidableEq

/- The store of list objects: current contents of each list. -/
def FState : Type := ListRef → List Nat

/-- Writing one list cell of the store. -/
def FState.write (σ : FState) (ref : ListRef) (L : List Nat) : FState :=
  fun r => if r = ref then L else σ r

/-- The body of Callings._flatten_orgs(orgs) from loop index i on:
      result = orgs
      for org in orgs: result += self._flatten_orgs(org['children'])
      return result
    The loop reads the live list (bound check and element read at the current
    state), the recursive call mutates the store, and the += appends the
    current contents of the child list object the recursive call returned. -/
def flattenGo (fuel : Nat) (σ : FState) (ref : ListRef) (i : Nat) : Option FState :=
  match fuel with
  | 0 => none
  | fuel + 1 =>
    if h : i < (σ ref).length then
      (flattenGo fuel σ (ListRef.child ((σ ref).get ⟨i, h⟩)) 0).bind fun σ2 =>
        flattenGo fuel
          (FState.write σ2 ref (σ2 ref ++ σ2 (ListRef.child ((σ ref).get ⟨i, h⟩)))) ref (i + 1)
    else
      some σ

/-- Embedding of Callings._flatten_orgs(orgs): run the loop from index 0 and
    return the argument list object itself (result aliases orgs). -/
def flatten_orgs (fuel : Nat) (σ : FState) (ref : ListRef) : Option (FState × ListRef) :=
  (flattenGo fuel σ ref 0).map fun σ2 => (σ2, ref)

/-- The contents of the list object _flatten_orgs returns when run on the
    top-level orgs list. -/
def flattenTop (fuel : Nat) (σ : FState) : Option (List Nat) :=
  (flatten_orgs fuel σ ListRef.top).map fun p => p.1 p.2

/-- Embedding of the rest of Callings.__init__: after flattening, self.callings
    is the concatenation of org['callings'] over the flattened org list
    (callingsOf gives each node's own callings list, which flattening never
    mutates). -/
def initCallings (fuel : Nat) (σ : FState) (callingsOf : Nat → List CallingRecord) :
    Option (List CallingRecord) :=
  (flatten_orgs fuel σ ListRef.top).map fun p => ((p.1 p.2).map callingsOf).flatten

/- ----------------------------------------------------------------------
   Spec-side tree model, for comparing the flattening with the spec's words
   (a forest of org nodes, each with an identifier and children).
   ---------------------------------------------------------------------- -/

/- A forest of org nodes as the JSON response shapes it: nil is the empty
   node list, and cons id children rest is one node (with its identifier and
   its own children forest) followed by its sibling nodes. -/
inductive OrgForest where
  | nil
  | cons (id : Nat) (children : OrgForest) (rest : OrgForest)
  deriving Repr, DecidableEq

/-- The identifiers of the roots of a forest. -/
def rootIds : OrgForest → List Nat
  | OrgForest.nil => []
  | OrgForest.cons i _ rest => i :: rootIds rest

/-- The children identifiers of node n anywhere in a forest. -/
def childIds : OrgForest → Nat → List Nat
  | OrgForest.nil, _ => []
  | OrgForest.cons i cs rest, n =>
    (if i = n then rootIds cs else []) ++ childIds cs n ++ childIds rest n

/-- The store of list objects that a JSON org forest denotes: the top-level
    list holds the root identifiers, and each node's children list holds its
    children's identifiers. -/
def stateOfForest (f : OrgForest) : FState :=
  fun r => match r with
  | ListRef.top => rootIds f
  | ListRef.child n => childIds f n

/-- Per the spec's words: the sum of the lengths of the callings lists across
    all nodes of the forest. -/
def specTotalCallings (callingsOf : Nat → List CallingRecord) : OrgForest → Nat
  | OrgForest.nil => 0
  | OrgForest.cons i cs rest =>
    (callingsOf i).length + specTotalCallings callingsOf cs + specTotalCallings callingsOf rest

/-- Per the spec's words: the pre-order (depth-first, parent before its
    descendants, left-to-right) node sequence of the forest. -/
def specPreorderIds : OrgForest → List Nat
  | OrgForest.nil => []
  | OrgForest.cons i cs rest => i :: (specPreorderIds cs ++ specPreorderIds rest)

/-- Embedding of Callings.call_to.  st is self.callings; unit_number is
    api.unit_number; lookupResult is the candidate list the remote returns
    for the lookup-calling-candidate-by-name read; postOk tells whether the
    write's raise_for_status passes.  Returns the final self.callings, the
    requests issued in order, and the outcome. -/
def call_to (st : List CallingRecord) (position lastNameCommaFirst : String)
    (sustained_date : Date) (set_apart : Bool) (include_hidden : Bool)
    (unit_number : Nat) (lookupResult : List Member) (postOk : Bool) :
    List CallingRecord × List NetOp × Except LCRError Unit :=
  match _get_calling_by_name st position none (callToCondition lastNameCommaFirst include_hidden) with
  | Except.error e => (st, [], Except.error e)
  | Except.ok calling =>
    let lookupOp := NetOp.getCandidates lastNameCommaFirst unit_number calling.subOrgId
      true calling.positionTypeId
    match single lookupResult "member" with
    | Except.error e => (st, [lookupOp], Except.error e)
    | Except.ok member =>
      let calling2 := { calling with
        activeDate := some (to_lcr_date_format sustained_date),
        memberId := some member.id,
        setApart := set_apart,
        vacant := false,
        hidden := false }
      (updateMatching (lookupPred position none (callToCondition lastNameCommaFirst include_hidden)) calling2 st,
       [lookupOp, NetOp.postCalling calling2],
       if postOk then Except.ok () else Except.error LCRError.HTTPError)

/- ----------------------------------------------------------------------
   Concrete inputs used by the counterexample and witness theorems.
   ---------------------------------------------------------------------- -/

/- A chain org tree: root 0 with child 1, which has child 2 (a grandchild
   of the root). -/
def chainTree : OrgForest :=
  OrgForest.cons 0 (OrgForest.cons 1 (OrgForest.cons 2 OrgForest.nil OrgForest.nil) OrgForest.nil) OrgForest.nil

/- Two root orgs (0 and 1), each with one child (2 and 3 respectively). -/
def twoRootTree : OrgForest :=
  OrgForest.cons 0 (OrgForest.cons 2 OrgForest.nil OrgForest.nil)
    (OrgForest.cons 1 (OrgForest.cons 3 OrgForest.nil OrgForest.nil) OrgForest.nil)

/- A vacant Teacher calling record. -/
def teacherCalling : CallingRecord :=
  { position := "Teacher", memberName := "", memberId := none, vacant := true,
    hidden := false, subOrgId := 5, positionTypeId := 7, activeDate := none,
    releaseDate := none, setApart := false }

/- Callings lists of the chainTree nodes: only the grandchild org 2 has a
   calling, the single teacherCalling record. -/
def chainCallingsOf : Nat → List CallingRecord :=
  fun n => if n = 2 then [teacherCalling] else []

/- ----------------------------------------------------------------------
   Helper lemmas.
   ---------------------------------------------------------------------- -/

/-- single succeeds exactly on one-element lists, returning that element. -/
theorem single_eq_ok {α : Type} (l : List α) (s : String) (a : α) :
    single l s = Except.ok a ↔ l = [a] := by
  match l with
  | [] => simp [single]
  | [x] => simp [single]
  | x :: y :: t =>
    simp only [single, List.length_cons, gt_iff_lt]
    rw [if_pos (by omega)]
    simp

/-- On a list without exactly one element, single returns the error the
    source raises: ItemNotFoundException on the empty list and
    MultipleResponsesException on two or more elements. -/
theorem single_eq_error {α : Type} (l : List α) (s : String) (h : l.length ≠ 1) :
    single l s = Except.error (if l.length = 0
      then LCRError.ItemNotFoundException ("No " ++ s ++ " found")
      else LCRError.MultipleResponsesException ("More than one " ++ s ++ " found")) := by
  match l with
  | [] => simp [single]
  | [x] => exact absurd rfl h
  | x :: y :: t =>
    simp only [single, List.length_cons, gt_iff_lt]
    rw [if_pos (by omega)]
    simp

/- ----------------------------------------------------------------------
   Claim theorems.
   ---------------------------------------------------------------------- -/

/-- C1: Flattening completeness fails on the code.  On the chain org tree
    (root 0, child 1, grandchild 2, where only node 2 carries one calling
    record) the spec-side sum of callings lengths over all nodes is 1, but
    the flattened org list is [0, 1, 2, 2] and the constructor's flattened
    calling list holds the record twice, because _flatten_orgs appends
    descendants to the very list it is iterating over and so flattens the
    grandchild again.  The duplicate then also makes the class's own lookup
    of that unique record fail with MultipleResponsesException. -/
theorem flatten_orgs_duplicates_grandchild_callings :
    specTotalCallings chainCallingsOf chainTree = 1 ∧
    flattenTop 100 (stateOfForest chainTree) = some [0, 1, 2, 2] ∧
    initCallings 100 (stateOfForest chainTree) chainCallingsOf =
      some [teacherCalling, teacherCalling] ∧
    List.count teacherCalling [teacherCalling, teacherCalling] = 2 ∧
    _get_calling_by_name [teacherCalling, teacherCalling] "Teacher" none (fun _ => true) =
      Except.error (LCRError.MultipleResponsesException "More than one calling found") := by
  exact ⟨rfl, rfl, rfl, by decide, rfl⟩

/-- C9 counterexample: the flattened order is not a pre-order traversal.
    On two root orgs 0 and 1 with children 2 and 3 respectively, the code
    produces [0, 1, 2, 3] while the pre-order is [0, 2, 1, 3]. -/
theorem flatten_orgs_not_preorder_counterexample :
    flattenTop 100 (stateOfForest twoRootTree) = some [0, 1, 2, 3] ∧
    specPreorderIds twoRootTree = [0, 2, 1, 3] ∧
    ([0, 1, 2, 3] : List Nat) ≠ [0, 2, 1, 3] := by
  exact ⟨rfl, rfl, by decide⟩

/-- C3: Uniqueness resolution.  single raises ItemNotFoundException (NoMatch)
    on the empty sequence, MultipleResponsesException (MultipleMatches) on two
    or more elements, and returns the sole element of a one-element sequence. -/
theorem single_uniqueness_resolution {α : Type} (l : List α) (s : String) :
    (l.length = 0 →
      single l s = Except.error (LCRError.ItemNotFoundException ("No " ++ s ++ " found"))) ∧
    (l.length > 1 →
      single l s = Except.error (LCRError.MultipleResponsesException ("More than one " ++ s ++ " found"))) ∧
    (∀ a, l = [a] → single l s = Except.ok a) := by
  refine ⟨fun h0 => ?_, fun h2 => ?_, fun a ha => (single_eq_ok l s a).mpr ha⟩
  · rw [single_eq_error l s (by omega)]
    rw [if_pos h0]
  · rw [single_eq_error l s (by omega)]
    rw [if_neg (by omega)]

/-- C3 witness: the three cases of single at concrete inputs. -/
theorem single_uniqueness_resolution_witness :
    single ([] : List Nat) "member" = Except.error (LCRError.ItemNotFoundException "No member found") ∧
    single [10, 20] "member" = Except.error (LCRError.MultipleResponsesException "More than one member found") ∧
    single [10] "member" = Except.ok 10 := by
  refine ⟨?_, ?_, ?_⟩
  · have h := (single_uniqueness_resolution ([] : List Nat) "member").1 (by decide)
    simpa using h
  · have h := (single_uniqueness_resolution [10, 20] "member").2.1 (by decide)
    simpa using h
  · exact (single_uniqueness_resolution [10] "member").2.2 10 rfl

/-- The two successive filters of _get_calling_by_name act as the single
    combined predicate lookupPred. -/
theorem filter_lookupPred (st : List CallingRecord) (position : String)
    (nm : Option String) (condition : CallingRecord → Bool) :
    (st.filter (baseMatch position nm)).filter condition =
      st.filter (lookupPred position nm condition) := by
  rw [List.filter_filter]
  exact List.filter_congr fun c _ => by
    simp [lookupPred, Bool.and_comm]

/-- C7: Lookup matching rule.  _get_calling_by_name applies single to exactly
    the records whose position equals the given one, whose memberName equals
    the given one when that parameter is present, and on which the extra
    predicate holds. -/
theorem get_calling_by_name_matching_rule (st : List CallingRecord) (position : String)
    (nm : Option String) (condition : CallingRecord → Bool) :
    _get_calling_by_name st position nm condition =
      single (st.filter (lookupPred position nm condition)) "calling" ∧
    ∀ r, r ∈ st.filter (lookupPred position nm condition) ↔
      (r ∈ st ∧ r.position = position ∧
        (nm = none ∨ nm = some r.memberName) ∧ condition r = true) := by
  constructor
  · rw [_get_calling_by_name, filter_lookupPred]
  · intro r
    cases nm with
    | none => simp [List.mem_filter, lookupPred, baseMatch, and_assoc]
    | some n =>
      simp only [List.mem_filter, lookupPred, baseMatch, Bool.and_eq_true,
        beq_iff_eq, Option.some.injEq]
      constructor
      · rintro ⟨hr, ⟨hp, hn⟩, hc⟩
        exact ⟨hr, hp, Or.inr hn.symm, hc⟩
      · rintro ⟨hr, hp, hn, hc⟩
        rcases hn with h | h
        · exact absurd h (by simp)
        · exact ⟨hr, ⟨hp, h.symm⟩, hc⟩

/-- C7 witness: on the two Teacher records of the spec's example, lookup by
    position and name matches only the named record, and lookup by position
    alone matches both so that single fails with MultipleResponsesException. -/
theorem get_calling_by_name_matching_rule_witness :
    (let smith : CallingRecord :=
      { position := "Teacher", memberName := "Smith, John", memberId := some 1,
        vacant := false, hidden := false, subOrgId := 5, positionTypeId := 7,
        activeDate := none, releaseDate := none, setApart := false }
    let doe : CallingRecord :=
      { position := "Teacher", memberName := "Doe, Jane", memberId := some 2,
        vacant := false, hidden := false, subOrgId := 5, positionTypeId := 7,
        activeDate := none, releaseDate := none, setApart := false }
    _get_calling_by_name [smith, doe] "Teacher" (some "Smith, John") (fun _ => true) =
      single ([smith, doe].filter (lookupPred "Teacher" (some "Smith, John") (fun _ => true))) "calling" ∧
    _get_calling_by_name [smith, doe] "Teacher" (some "Smith, John") (fun _ => true) =
      Except.ok smith ∧
    _get_calling_by_name [smith, doe] "Teacher" none (fun _ => true) =
      Except.error (LCRError.MultipleResponsesException "More than one calling found")) := by
  refine ⟨(get_calling_by_name_matching_rule _ "Teacher" (some "Smith, John") (fun _ => true)).1, rfl, rfl⟩

/-- C6: Hidden-slot exclusion.  With include_hidden = false (the default) a
    record with hidden = true never satisfies the appointment condition and
    is never the record call_to's resolution returns, even if it satisfies
    the position and vacancy/name conditions; with include_hidden = true such
    a record satisfies the condition. -/
theorem call_to_hidden_slot_exclusion (st : List CallingRecord) (position name : String) :
    (∀ c, _get_calling_by_name st position none (callToCondition name false) = Except.ok c →
      c.hidden = false) ∧
    (∀ c, c.hidden = true → (c.vacant = true ∨ c.memberName = name) →
      c.position = position →
      callToCondition name false c = false ∧ callToCondition name true c = true) := by
  constructor
  · intro c hc
    rw [_get_calling_by_name, single_eq_ok] at hc
    have hmem : c ∈ (st.filter (baseMatch position none)).filter (callToCondition name false) := by
      rw [hc]; exact List.mem_singleton.mpr rfl
    have := (List.mem_filter.mp hmem).2
    rw [callToCondition] at this
    simp only [Bool.and_eq_true, Bool.or_eq_true] at this
    rcases this with ⟨_, h⟩
    simp only [Bool.or_eq_true, Bool.not_eq_true'] at h
    rcases h with h | h
    · exact h
    · exact absurd h (by simp)
  · intro c hh hvn _
    rw [callToCondition, callToCondition, hh]
    have hv : (c.vacant || c.memberName == name) = true := by
      rcases hvn with h | h
      · simp [h]
      · simp [h]
    simp [hv]

/-- C6 witness: a hidden vacant Teacher slot is rejected by the
    include_hidden = false condition and accepted with include_hidden = true,
    and resolution with include_hidden = true picks it. -/
theorem call_to_hidden_slot_exclusion_witness :
    (let hiddenSlot : CallingRecord :=
      { position := "Teacher", memberName := "", memberId := none,
        vacant := true, hidden := true, subOrgId := 5, positionTypeId := 7,
        activeDate := none, releaseDate := none, setApart := false }
    callToCondition "Smith, John" false hiddenSlot = false ∧
    callToCondition "Smith, John" true hiddenSlot = true) := by
  intro hiddenSlot
  have h := (call_to_hidden_slot_exclusion [hiddenSlot] "Teacher" "Smith, John").2
    hiddenSlot rfl (Or.inl rfl) rfl
  exact ⟨h.1, h.2⟩

/-- Enough fuel renders at most k + 1 digit characters for n < 10 ^ (k + 1). -/
theorem decDigitsAux_length_le : ∀ fuel n k, n < fuel → n < 10 ^ (k + 1) →
    (decDigitsAux fuel n).length ≤ k + 1 := by
  intro fuel
  induction fuel with
  | zero => intro n k h; omega
  | succ fuel ih =>
    intro n k hf hk
    rw [decDigitsAux]
    by_cases h10 : n < 10
    · simp [h10]
    · rw [if_neg h10]
      cases k with
      | zero => omega
      | succ k =>
        have hdiv : n / 10 < 10 ^ (k + 1) := by
          rw [Nat.div_lt_iff_lt_mul (by omega)]
          calc n < 10 ^ (k + 2) := hk
          _ = 10 ^ (k + 1) * 10 := by ring
        have := ih (n / 10) k (by omega) hdiv
        simp only [List.length_append, List.length_cons, List.length_nil]
        omega

/-- Every character decDigitsAux renders is an ASCII digit. -/
theorem decDigitsAux_isDigit : ∀ fuel n, n < fuel →
    ∀ c ∈ decDigitsAux fuel n, c.isDigit = true := by
  intro fuel
  induction fuel with
  | zero => intro n h; omega
  | succ fuel ih =>
    intro n hf c hc
    rw [decDigitsAux] at hc
    by_cases h10 : n < 10
    · rw [if_pos h10] at hc
      simp only [List.mem_singleton] at hc
      subst hc
      interval_cases n <;> decide
    · rw [if_neg h10] at hc
      rcases List.mem_append.mp hc with h | h
      · exact ih (n / 10) (by omega) c h
      · simp only [List.mem_singleton] at h
        subst h
        have hm : n % 10 < 10 := Nat.mod_lt _ (by omega)
        set m := n % 10 with hmm
        interval_cases m <;> decide

/-- The list of characters to_lcr_date_format renders: for any date with at
    most 4-digit year and at most 2-digit month and day fields it is exactly
    8 characters long and consists solely of ASCII digits. -/
theorem to_lcr_date_format_shape (d : Date) (hy : d.year ≤ 9999)
    (hm : d.month ≤ 99) (hd : d.day ≤ 99) :
    (to_lcr_date_format d).data.length = 8 ∧
    ∀ c ∈ (to_lcr_date_format d).data, c.isDigit = true := by
  have ly : (decDigits d.year).length ≤ 4 := by
    have := decDigitsAux_length_le (d.year + 1) d.year 3 (by omega) (by omega)
    simpa [decDigits] using this
  have lm : (decDigits d.month).length ≤ 2 := by
    have := decDigitsAux_length_le (d.month + 1) d.month 1 (by omega) (by omega)
    simpa [decDigits] using this
  have ld : (decDigits d.day).length ≤ 2 := by
    have := decDigitsAux_length_le (d.day + 1) d.day 1 (by omega) (by omega)
    simpa [decDigits] using this
  have dy := decDigitsAux_isDigit (d.year + 1) d.year (by omega)
  have dm := decDigitsAux_isDigit (d.month + 1) d.month (by omega)
  have dd := decDigitsAux_isDigit (d.day + 1) d.day (by omega)
  constructor
  · simp only [to_lcr_date_format, zeroPad, String.data]
    simp only [List.length_append, List.length_replicate]
    omega
  · intro c hc
    simp only [to_lcr_date_format, zeroPad, String.data, List.mem_append,
      List.mem_replicate] at hc
    rcases hc with (⟨_, h⟩ | h) | (⟨_, h⟩ | h) | (⟨_, h⟩ | h)
    · subst h; decide
    · exact dy c (by simpa [decDigits] using h)
    · subst h; decide
    · exact dm c (by simpa [decDigits] using h)
    · subst h; decide
    · exact dd c (by simpa [decDigits] using h)

/-- C5: Release write shape.  Whenever the lookup resolves a record c —
    whatever c's prior field values — release_from_calling issues exactly one
    network request, a write of c with vacant set to true and releaseDate set
    to to_lcr_date_format of today, and that date string is exactly 8 ASCII
    digits (4-digit zero-padded year, 2-digit zero-padded month and day). -/
theorem release_write_shape (st : List CallingRecord) (position name : String)
    (today : Date) (c : CallingRecord)
    (h1 : _get_calling_by_name st position (some name) (fun _ => true) = Except.ok c)
    (hy : today.year ≤ 9999) (hm : today.month ≤ 99) (hd : today.day ≤ 99) :
    (release_from_calling st position name today true).2.1 =
      [NetOp.postCalling { c with vacant := true, releaseDate := some (to_lcr_date_format today) }] ∧
    (release_from_calling st position name today true).2.2 = Except.ok () ∧
    (to_lcr_date_format today).data.length = 8 ∧
    (∀ ch ∈ (to_lcr_date_format today).data, ch.isDigit = true) := by
  have hshape := to_lcr_date_format_shape today hy hm hd
  unfold release_from_calling
  rw [h1]
  exact ⟨rfl, rfl, hshape.1, hshape.2⟩

/-- C5 witness: releasing the sole occupied Teacher record on 2024-03-05
    issues one write with vacant true and releaseDate "20240305". -/
theorem release_write_shape_witness :
    (let smith : CallingRecord :=
      { position := "Teacher", memberName := "Smith, John", memberId := some 1,
        vacant := false, hidden := false, subOrgId := 5, positionTypeId := 7,
        activeDate := some "20200101", releaseDate := none, setApart := true }
    to_lcr_date_format ⟨2024, 3, 5⟩ = "20240305" ∧
    (release_from_calling [smith] "Teacher" "Smith, John" ⟨2024, 3, 5⟩ true).2.1 =
      [NetOp.postCalling { smith with vacant := true, releaseDate := some (to_lcr_date_format ⟨2024, 3, 5⟩) }] ∧
    (release_from_calling [smith] "Teacher" "Smith, John" ⟨2024, 3, 5⟩ true).2.2 = Except.ok () ∧
    (to_lcr_date_format ⟨2024, 3, 5⟩).data.length = 8 ∧
    (∀ ch ∈ (to_lcr_date_format ⟨2024, 3, 5⟩).data, ch.isDigit = true)) := by
  intro smith
  have h := release_write_shape [smith] "Teacher" "Smith, John" ⟨2024, 3, 5⟩ smith
    (by rfl) (by decide) (by decide) (by decide)
  exact ⟨rfl, h.1, h.2.1, h.2.2.1, h.2.2.2⟩

/-- C4: Appoint write shape.  Whenever call_to's resolution finds a target
    record and the candidate lookup returns exactly one member, the call with
    a passing write performs exactly two network operations — the candidate
    lookup read followed by one write — and the record submitted in the write
    has activeDate set to the effective date in YYYYMMDD form, memberId set
    to the candidate's id, setApart set to the given flag, and vacant and
    hidden set to false. -/
theorem call_to_write_shape (st : List CallingRecord) (position name : String)
    (d : Date) (sa ih : Bool) (unit : Nat) (calling : CallingRecord) (member : Member)
    (h1 : _get_calling_by_name st position none (callToCondition name ih) = Except.ok calling) :
    ∃ rec,
      (call_to st position name d sa ih unit [member] true).2.1 =
        [NetOp.getCandidates name unit calling.subOrgId true calling.positionTypeId,
         NetOp.postCalling rec] ∧
      rec.activeDate = some (to_lcr_date_format d) ∧
      rec.memberId = some member.id ∧
      rec.setApart = sa ∧
      rec.vacant = false ∧
      rec.hidden = false ∧
      (call_to st position name d sa ih unit [member] true).2.2 = Except.ok () := by
  refine ⟨{ calling with activeDate := some (to_lcr_date_format d), memberId := some member.id, setApart := sa, vacant := false, hidden := false }, ?_, rfl, rfl, rfl, rfl, rfl, ?_⟩ <;>
  · unfold call_to
    rw [h1]
    rfl

/-- C4 witness: appointing candidate id 12345 to the vacant Teacher slot on
    2024-09-01 with setApart true submits activeDate "20240901", memberId
    12345, setApart true, vacant false, hidden false, after exactly one
    candidate-lookup read and one write. -/
theorem call_to_write_shape_witness :
    ∃ rec,
      (call_to [teacherCalling] "Teacher" "Smith, John" ⟨2024, 9, 1⟩ true false 42
        [⟨12345, "Smith, John"⟩] true).2.1 =
        [NetOp.getCandidates "Smith, John" 42 teacherCalling.subOrgId true teacherCalling.positionTypeId,
         NetOp.postCalling rec] ∧
      rec.activeDate = some "20240901" ∧
      rec.memberId = some 12345 ∧
      rec.setApart = true ∧
      rec.vacant = false ∧
      rec.hidden = false ∧
      (call_to [teacherCalling] "Teacher" "Smith, John" ⟨2024, 9, 1⟩ true false 42
        [⟨12345, "Smith, John"⟩] true).2.2 = Except.ok () := by
  obtain ⟨rec, h⟩ := call_to_write_shape [teacherCalling] "Teacher" "Smith, John"
    ⟨2024, 9, 1⟩ true false 42 teacherCalling ⟨12345, "Smith, John"⟩ (by rfl)
  exact ⟨rec, h.1, by rw [h.2.1]; rfl, h.2.2.1, h.2.2.2.1, h.2.2.2.2.1, h.2.2.2.2.2.1,
    h.2.2.2.2.2.2⟩

/-- C2: Abort before write on ambiguity.  Whenever the remote candidate
    lookup would return a list without exactly one member (zero, or two or
    more), call_to leaves self.callings unchanged, issues no write request,
    and fails; and when the target record had been resolved, the error is
    precisely ItemNotFoundException on zero candidates and
    MultipleResponsesException on several. -/
theorem call_to_aborts_before_write_on_ambiguity (st : List CallingRecord)
    (position name : String) (d : Date) (sa ih : Bool) (unit : Nat)
    (lookupResult : List Member) (postOk : Bool) (hn : lookupResult.length ≠ 1) :
    (call_to st position name d sa ih unit lookupResult postOk).1 = st ∧
    (∀ r, NetOp.postCalling r ∉ (call_to st position name d sa ih unit lookupResult postOk).2.1) ∧
    (∃ e, (call_to st position name d sa ih unit lookupResult postOk).2.2 = Except.error e) ∧
    (∀ calling, _get_calling_by_name st position none (callToCondition name ih) = Except.ok calling →
      (call_to st position name d sa ih unit lookupResult postOk).2.2 =
        Except.error (if lookupResult.length = 0
          then LCRError.ItemNotFoundException "No member found"
          else LCRError.MultipleResponsesException "More than one member found")) := by
  cases h : _get_calling_by_name st position none (callToCondition name ih) with
  | error e =>
    unfold call_to
    rw [h]
    exact ⟨rfl, by simp, ⟨e, rfl⟩, fun calling hc => absurd hc (by simp)⟩
  | ok calling =>
    unfold call_to
    rw [h, single_eq_error lookupResult "member" hn]
    refine ⟨rfl, by simp, ⟨_, rfl⟩, fun _ _ => ?_⟩
    rcases lookupResult with _ | ⟨x, _ | ⟨y, t⟩⟩
    · rfl
    · exact absurd rfl hn
    · rfl

/-- C2 witness: with an empty candidate list, appointing to the vacant
    Teacher slot issues no write, leaves the list unchanged and fails with
    ItemNotFoundException. -/
theorem call_to_aborts_before_write_on_ambiguity_witness :
    ([] : List Member).length ≠ 1 ∧
    (call_to [teacherCalling] "Teacher" "Smith, John" ⟨2024, 9, 1⟩ false false 42 [] true).1 =
      [teacherCalling] ∧
    (∀ r, NetOp.postCalling r ∉
      (call_to [teacherCalling] "Teacher" "Smith, John" ⟨2024, 9, 1⟩ false false 42 [] true).2.1) ∧
    (call_to [teacherCalling] "Teacher" "Smith, John" ⟨2024, 9, 1⟩ false false 42 [] true).2.2 =
      Except.error (LCRError.ItemNotFoundException "No member found") := by
  have h := call_to_aborts_before_write_on_ambiguity [teacherCalling] "Teacher" "Smith, John"
    ⟨2024, 9, 1⟩ false false 42 [] true (by decide)
  refine ⟨by decide, h.1, h.2.1, ?_⟩
  have := h.2.2.2 teacherCalling (by rfl)
  simpa using this

/-- A record resolved by _get_calling_by_name is in the stored list and
    satisfies the combined lookup predicate. -/
theorem get_calling_ok_pred {st : List CallingRecord} {position : String}
    {nm : Option String} {cond : CallingRecord → Bool} {c : CallingRecord}
    (h : _get_calling_by_name st position nm cond = Except.ok c) :
    c ∈ st ∧ lookupPred position nm cond c = true := by
  rw [_get_calling_by_name, single_eq_ok, filter_lookupPred] at h
  have hc : c ∈ st.filter (lookupPred position nm cond) := by
    rw [h]; exact List.mem_singleton.mpr rfl
  exact ⟨(List.mem_filter.mp hc).1, (List.mem_filter.mp hc).2⟩

/-- The mutated record is in the updated list as soon as some stored record
    satisfies the resolution predicate. -/
theorem mem_updateMatching {p : CallingRecord → Bool} {c2 : CallingRecord}
    {st : List CallingRecord} (h : ∃ x ∈ st, p x = true) :
    c2 ∈ updateMatching p c2 st := by
  obtain ⟨x, hx, hp⟩ := h
  rw [updateMatching]
  exact List.mem_map.mpr ⟨x, hx, by rw [if_pos hp]⟩

/-- C8: Non-atomic mutation on write failure.  For release_from_calling and
    call_to alike, when the final write fails, the in-memory list returned is
    the same already-mutated list as on a passing write: it contains the
    record with the new field values (vacant/releaseDate for release;
    activeDate/memberId/setApart/vacant/hidden for appoint), while the
    operation's outcome is the propagated write error and the trace shows the
    attempted write. -/
theorem mutation_precedes_failed_write :
    (∀ (st : List CallingRecord) (position name : String) (today : Date) (c : CallingRecord),
      _get_calling_by_name st position (some name) (fun _ => true) = Except.ok c →
        (release_from_calling st position name today false).2.2 = Except.error LCRError.HTTPError ∧
        (release_from_calling st position name today false).2.1 =
          [NetOp.postCalling { c with vacant := true, releaseDate := some (to_lcr_date_format today) }] ∧
        (release_from_calling st position name today false).1 =
          (release_from_calling st position name today true).1 ∧
        { c with vacant := true, releaseDate := some (to_lcr_date_format today) } ∈
          (release_from_calling st position name today false).1) ∧
    (∀ (st : List CallingRecord) (position name : String) (d : Date) (sa ih : Bool)
        (unit : Nat) (calling : CallingRecord) (member : Member),
      _get_calling_by_name st position none (callToCondition name ih) = Except.ok calling →
        (call_to st position name d sa ih unit [member] false).2.2 = Except.error LCRError.HTTPError ∧
        NetOp.postCalling { calling with activeDate := some (to_lcr_date_format d), memberId := some member.id, setApart := sa, vacant := false, hidden := false } ∈
          (call_to st position name d sa ih unit [member] false).2.1 ∧
        (call_to st position name d sa ih unit [member] false).1 =
          (call_to st position name d sa ih unit [member] true).1 ∧
        { calling with activeDate := some (to_lcr_date_format d), memberId := some member.id, setApart := sa, vacant := false, hidden := false } ∈
          (call_to st position name d sa ih unit [member] false).1) := by
  constructor
  · intro st position name today c h1
    obtain ⟨hmem, hpred⟩ := get_calling_ok_pred h1
    refine ⟨?_, ?_, ?_, ?_⟩
    · unfold release_from_calling; rw [h1]; try rfl
    · unfold release_from_calling; rw [h1]; try rfl
    · unfold release_from_calling; rw [h1]; try rfl
    · unfold release_from_calling
      rw [h1]
      exact mem_updateMatching ⟨c, hmem, hpred⟩
  · intro st position name d sa ih unit calling member h1
    obtain ⟨hmem, hpred⟩ := get_calling_ok_pred h1
    refine ⟨?_, ?_, ?_, ?_⟩
    · unfold call_to; rw [h1]; rfl
    · unfold call_to
      rw [h1]
      simp only [single_eq_ok ([member]) "member" member |>.mpr rfl]
      simp
    · unfold call_to; rw [h1]; rfl
    · unfold call_to
      rw [h1]
      exact mem_updateMatching ⟨calling, hmem, hpred⟩

/-- C8 witness: releasing the occupied Teacher record with a failing write
    returns the error but the in-memory list already holds the mutated
    record. -/
theorem mutation_precedes_failed_write_witness :
    (let smith : CallingRecord :=
      { position := "Teacher", memberName := "Smith, John", memberId := some 1,
        vacant := false, hidden := false, subOrgId := 5, positionTypeId := 7,
        activeDate := some "20200101", releaseDate := none, setApart := true }
    _get_calling_by_name [smith] "Teacher" (some "Smith, John") (fun _ => true) = Except.ok smith ∧
    (release_from_calling [smith] "Teacher" "Smith, John" ⟨2024, 3, 5⟩ false).2.2 =
      Except.error LCRError.HTTPError ∧
    { smith with vacant := true, releaseDate := some (to_lcr_date_format ⟨2024, 3, 5⟩) } ∈
      (release_from_calling [smith] "Teacher" "Smith, John" ⟨2024, 3, 5⟩ false).1) := by
  intro smith
  have h := mutation_precedes_failed_write.1 [smith] "Teacher" "Smith, John"
    ⟨2024, 3, 5⟩ smith rfl
  exact ⟨rfl, h.1, h.2.2.2⟩

/- ----------------------------------------------------------------------
   General lemmas about the flattening loop.
   ---------------------------------------------------------------------- -/

/-- Store extension: every list cell's old contents are an initial segment of
    its new contents (the loop only ever appends to list objects). -/
def FStateExt (σ σ2 : FState) : Prop := ∀ r, ∃ t, σ2 r = σ r ++ t

theorem fstateExt_refl (σ : FState) : FStateExt σ σ :=
  fun _r => ⟨[], (List.append_nil _).symm⟩

theorem fstateExt_trans {a b c : FState} (h1 : FStateExt a b) (h2 : FStateExt b c) :
    FStateExt a c := by
  intro r
  obtain ⟨t1, e1⟩ := h1 r
  obtain ⟨t2, e2⟩ := h2 r
  exact ⟨t1 ++ t2, by rw [e2, e1, List.append_assoc]⟩

theorem fstateExt_write (σ : FState) (ref : ListRef) (X : List Nat) :
    FStateExt σ (FState.write σ ref (σ ref ++ X)) := by
  intro r
  by_cases h : r = ref
  · subst h
    exact ⟨X, by simp [FState.write]⟩
  · exact ⟨[], by simp [FState.write, h]⟩

theorem fstateExt_mem {σ σ2 : FState} (h : FStateExt σ σ2) {r : ListRef} {m : Nat}
    (hm : m ∈ σ r) : m ∈ σ2 r := by
  obtain ⟨t, ht⟩ := h r
  rw [ht]
  exact List.mem_append_left _ hm

/-- Whatever the loop does, it only extends the list objects of the store. -/
theorem flattenGo_ext : ∀ fuel σ ref i σ2, flattenGo fuel σ ref i = some σ2 →
    FStateExt σ σ2 := by
  intro fuel
  induction fuel with
  | zero => intro σ ref i σ2 h; simp [flattenGo] at h
  | succ fuel ih =>
    intro σ ref i σ2 h
    rw [flattenGo] at h
    by_cases hi : i < (σ ref).length
    · rw [dif_pos hi, Option.bind_eq_some] at h
      obtain ⟨σm, hrec, hcont⟩ := h
      exact fstateExt_trans
        (fstateExt_trans (ih _ _ _ _ hrec) (fstateExt_write σm ref _))
        (ih _ _ _ _ hcont)
    · rw [dif_neg hi] at h
      obtain rfl := Option.some.inj h
      exact fstateExt_refl σ

/-- Every element at a position the loop still has to process has its
    (original) children in the final list: processing index j appends the
    then-current contents of that node's children list, which include its
    original contents. -/
theorem flattenGo_closed : ∀ fuel σ ref i σ2, flattenGo fuel σ ref i = some σ2 →
    ∀ j x, i ≤ j → (σ2 ref)[j]? = some x →
      ∀ m ∈ σ (ListRef.child x), m ∈ σ2 ref := by
  intro fuel
  induction fuel with
  | zero => intro σ ref i σ2 h; simp [flattenGo] at h
  | succ fuel ih =>
    intro σ ref i σ2 h j x hij hjx m hm
    rw [flattenGo] at h
    by_cases hi : i < (σ ref).length
    · rw [dif_pos hi, Option.bind_eq_some] at h
      obtain ⟨σm, hrec, hcont⟩ := h
      have ext1 : FStateExt σ σm := flattenGo_ext _ _ _ _ _ hrec
      have ext2 : FStateExt σm
          (FState.write σm ref (σm ref ++ σm (ListRef.child ((σ ref).get ⟨i, hi⟩)))) :=
        fstateExt_write _ _ _
      have ext3 : FStateExt
          (FState.write σm ref (σm ref ++ σm (ListRef.child ((σ ref).get ⟨i, hi⟩)))) σ2 :=
        flattenGo_ext _ _ _ _ _ hcont
      rcases Nat.lt_or_ge i j with hlt | hge
      · exact ih _ _ _ _ hcont j x hlt hjx m (fstateExt_mem (fstateExt_trans ext1 ext2) hm)
      · have hieq : i = j := Nat.le_antisymm hij hge
        subst hieq
        have hext : FStateExt σ σ2 :=
          fstateExt_trans (fstateExt_trans ext1 ext2) ext3
        obtain ⟨t, ht⟩ := hext ref
        have hx : x = (σ ref).get ⟨i, hi⟩ := by
          rw [ht, List.getElem?_append_left hi, List.getElem?_eq_getElem hi] at hjx
          simpa using hjx.symm
        subst hx
        have h1 : m ∈ σm (ListRef.child ((σ ref).get ⟨i, hi⟩)) := fstateExt_mem ext1 hm
        have h2 : m ∈
            (FState.write σm ref (σm ref ++ σm (ListRef.child ((σ ref).get ⟨i, hi⟩)))) ref := by
          simp only [FState.write, if_pos rfl]
          exact List.mem_append_right _ h1
        exact fstateExt_mem ext3 h2
    · rw [dif_neg hi] at h
      obtain rfl := Option.some.inj h
      obtain ⟨hlen, -⟩ := List.getElem?_eq_some.mp hjx
      omega

/- m is a descendant of n with respect to the original store: reachable from
   n through one or more original child steps. -/
inductive Desc (σ : FState) : Nat → Nat → Prop where
  | here {n m : Nat} : m ∈ σ (ListRef.child n) → Desc σ n m
  | step {n m k : Nat} : m ∈ σ (ListRef.child n) → Desc σ m k → Desc σ n k

/-- C9 amended: the flattened order is not a pre-order traversal (see the
    counterexample); what does hold is that _flatten_orgs only appends, so the
    input list's nodes come first, in their original order — the argument
    list's original contents are an initial segment of the returned list's
    contents, with descendant nodes appended after them. -/
theorem flatten_orgs_appends_after_input (fuel : Nat) (σ : FState) (ref : ListRef)
    (p : FState × ListRef) (h : flatten_orgs fuel σ ref = some p) :
    p.2 = ref ∧ ∃ t, p.1 ref = σ ref ++ t := by
  rw [flatten_orgs, Option.map_eq_some'] at h
  obtain ⟨σ2, h2, hp⟩ := h
  subst hp
  exact ⟨rfl, (flattenGo_ext _ _ _ _ _ h2) ref⟩

/-- C9 amended witness: on the two-root tree the input [0, 1] is an initial
    segment of the flattened output. -/
theorem flatten_orgs_appends_after_input_witness :
    ∃ p, flatten_orgs 100 (stateOfForest twoRootTree) ListRef.top = some p ∧
      p.2 = ListRef.top ∧
      ∃ t, p.1 ListRef.top = stateOfForest twoRootTree ListRef.top ++ t := by
  have hs : (flatten_orgs 100 (stateOfForest twoRootTree) ListRef.top).isSome = true := rfl
  obtain ⟨p, hp⟩ := Option.isSome_iff_exists.mp hs
  obtain ⟨h1, h2⟩ := flatten_orgs_appends_after_input 100 _ _ p hp
  exact ⟨p, hp, h1, h2⟩

/-- C10: _flatten_orgs returns the very list object it was given (the same
    reference), has extended that object in place (its original contents are
    an initial segment of its final contents), and after the call the list
    additionally contains every descendant of every original top-level node. -/
theorem flatten_orgs_aliases_and_extends_argument (fuel : Nat) (σ : FState)
    (ref : ListRef) (p : FState × ListRef) (h : flatten_orgs fuel σ ref = some p)
    (_hne : σ ref ≠ []) :
    p.2 = ref ∧ (∃ t, p.1 ref = σ ref ++ t) ∧
    ∀ n ∈ σ ref, ∀ m, Desc σ n m → m ∈ p.1 ref := by
  rw [flatten_orgs, Option.map_eq_some'] at h
  obtain ⟨σ2, h2, hp⟩ := h
  subst hp
  have hext := flattenGo_ext _ _ _ _ _ h2
  refine ⟨rfl, hext ref, ?_⟩
  have hclosed : ∀ x ∈ σ2 ref, ∀ m ∈ σ (ListRef.child x), m ∈ σ2 ref := by
    intro x hx m hm
    obtain ⟨j, hj⟩ := List.mem_iff_getElem?.mp hx
    exact flattenGo_closed _ _ _ _ _ h2 j x (Nat.zero_le j) hj m hm
  have key : ∀ a b, Desc σ a b → a ∈ σ2 ref → b ∈ σ2 ref := by
    intro a b hd
    induction hd with
    | here hcm => intro ha; exact hclosed _ ha _ hcm
    | step hcm _ ihd => intro ha; exact ihd (hclosed _ ha _ hcm)
  intro n hn m hdesc
  exact key n m hdesc (fstateExt_mem hext hn)

/-- C10 witness: on the chain tree the call returns the same reference, [0]
    is an initial segment of the output, and the descendants 1 and 2 of root
    0 are in the output list. -/
theorem flatten_orgs_aliases_and_extends_argument_witness :
    ∃ p, flatten_orgs 100 (stateOfForest chainTree) ListRef.top = some p ∧
      p.2 = ListRef.top ∧
      (∃ t, p.1 ListRef.top = stateOfForest chainTree ListRef.top ++ t) ∧
      ∀ n ∈ stateOfForest chainTree ListRef.top, ∀ m, Desc (stateOfForest chainTree) n m →
        m ∈ p.1 ListRef.top := by
  have hs : (flatten_orgs 100 (stateOfForest chainTree) ListRef.top).isSome = true := rfl
  obtain ⟨p, hp⟩ := Option.isSome_iff_exists.mp hs
  obtain ⟨h1, h2, h3⟩ := flatten_orgs_aliases_and_extends_argument 100 _ _ p hp (by decide)
  exact ⟨p, hp, h1, h2, h3⟩
